import Mathlib

/-!
Verification of the navigation-and-listing engine of CsFM (src/src/main.rs),
a desktop file browser.  The filesystem, the zenity dialog collaborators and
the OS launcher are external; each reducer step receives their outcomes
explicitly through an `Env` value.  A result of `none` from a fallible
operation models a Rust panic (`.unwrap()` on a failed value), i.e. process
termination.
-/

namespace CsFM

/-- Absolute filesystem paths, modelled as their list of components;
`[]` is the root `/`. -/
abbrev FsPath := List String

/-- Model of Rust `Path::parent`: `None` at the root, otherwise the path
without its final component. -/
def parentPath (p : FsPath) : Option FsPath :=
  if p = [] then none else some p.dropLast

/-- Model of Rust `Path::file_name`: the final component. -/
def fileName (p : FsPath) : Option String :=
  p.getLast?

/-- `state.path.parent().unwrap_or(PathBuf::from("/"))` from the `Up`
handler: the parent when one exists, the root otherwise. -/
def upPath (p : FsPath) : FsPath :=
  (parentPath p).getD []

/-- Model of `PathBuf::from(s)` for a user-typed string: split on the
separator, dropping empty components. -/
def pathFromString (s : String) : FsPath :=
  (s.splitOn "/").filter (fun c => c ≠ "")

/-- One directory entry as `get_files` records it: the entry pushed is
`(entry.path(), entry.path().is_dir())` and every later consumer only looks
at `path.file_name()` — which for a `read_dir` entry is exactly
`entry.file_name()` — so we carry the derived name and the `is_dir` bit.
The name is its sequence of characters, so that the lexicographic
byte/codepoint comparison of `OsStr` is literal list comparison. -/
structure DirEntry where
  name : List Char
  isDir : Bool
  deriving DecidableEq, Repr

/-- Model of `file_name.starts_with('.')`: the first character is `'.'`. -/
def startsWithDot (n : List Char) : Bool :=
  match n with
  | [] => false
  | c :: _ => c = '.'

/-- Outcome of `fs::read_dir` plus the per-entry reads during iteration:
`none` for a failed `read_dir` call, and inside a successful one, `none`
for an individual entry whose read returned `Err`. -/
abbrev ReadDirResult := Option (List (Option DirEntry))

/-- The loop body of `get_files`: drop entries whose read failed
(`Err(_) => continue`) and, when `show_hidden_files` is false, entries whose
name starts with `'.'`. -/
def collectEntries (show_hidden_files : Bool) : List (Option DirEntry) → List DirEntry
  | [] => []
  | none :: rest => collectEntries show_hidden_files rest
  | some e :: rest =>
      if !show_hidden_files && startsWithDot e.name then
        collectEntries show_hidden_files rest
      else
        e :: collectEntries show_hidden_files rest

/-- The comparison the source performs inside the sort: `OsStr::cmp` of the
file names, which is lexicographic byte order — equal to codepoint order on
UTF-8 — spelled out on the character sequences. -/
def cmpName : List Char → List Char → Ordering
  | [], [] => .eq
  | [], _ :: _ => .lt
  | _ :: _, [] => .gt
  | a :: as, b :: bs =>
      if a < b then .lt else if b < a then .gt else cmpName as bs

/-- The comparator passed to `sort_by` in `get_files`: directories first,
then alphabetic by file name inside each group. -/
def rustCmp (a b : DirEntry) : Ordering :=
  match a.isDir, b.isDir with
  | true, false => .lt
  | false, true => .gt
  | _, _ => cmpName a.name b.name

/-- The "does not come after" relation induced by the comparator; a stable
comparison sort arranges the list into a `≼`-sorted permutation, which we
realise with insertion sort. -/
def entryLE (a b : DirEntry) : Prop :=
  rustCmp a b ≠ .gt

instance : DecidableRel entryLE := fun a b => by
  unfold entryLE; infer_instance

/-- `get_files(path, show_hidden_files)` from the source, with the
filesystem interaction abstracted into the `read_dir` outcome at `path`:
on a failed read return the (still empty) accumulator, otherwise collect
the readable, visibility-filtered entries and sort them. -/
def get_files (readDir : ReadDirResult) (show_hidden_files : Bool) : List DirEntry :=
  match readDir with
  | none => []
  | some entries =>
      List.insertionSort entryLE (collectEntries show_hidden_files entries)

/-- Configuration file contents (`csfm.toml`). -/
structure Location where
  title : String
  path : String
  deriving DecidableEq, Repr

structure Config where
  theme : String
  show_hidden_files : Bool
  sidebar_loc : List Location
  deriving DecidableEq, Repr

/-- `load_config` from the source: `read_to_string(path).unwrap()` then
`toml::from_str(&data).unwrap()`.  The file read outcome and the TOML
parser are inputs; `none` models the panic of either `unwrap`. -/
def load_config (fileContents : Option String)
    (parseToml : String → Option Config) : Option Config :=
  match fileContents with
  | none => none
  | some data =>
      match parseToml data with
      | none => none
      | some config => some config

/-- The application state struct `CsFM`. -/
structure State where
  config : Config
  path : FsPath
  current_files : List DirEntry
  sidebar_open : Bool
  deriving DecidableEq, Repr

/-- `Default for CsFM`: current dir (falling back to `/`), `load_config()`,
and an initial listing with hidden files off.  `none` models the panic
propagated out of `load_config`. -/
def defaultState (cwd : Option FsPath) (fileContents : Option String)
    (parseToml : String → Option Config) (readDir : ReadDirResult) : Option State :=
  let path := cwd.getD []
  match load_config fileContents parseToml with
  | none => none
  | some cfg => some ⟨cfg, path, get_files readDir false, true⟩

/-- The message enumeration.  `QuitApp` carries the optional window id the
source unwraps. -/
inductive Message where
  | PathChanged (s : String)
  | CDToPath
  | CD (p : FsPath)
  | QuitApp (id : Option Nat)
  | Open (p : FsPath)
  | DeleteFile (p : FsPath)
  | DeleteDir (p : FsPath)
  | ToggleSidebar
  | Up
  | None
  deriving DecidableEq, Repr

/-- The `iced::Task` value a reducer step returns: nothing, a follow-up
message, or a window-close command. -/
inductive EffectTask where
  | none
  | done (m : Message)
  | closeWindow (id : Nat)
  deriving DecidableEq, Repr

/-- Filesystem mutations the reducer can issue. -/
inductive FsOp where
  | removeFile (p : FsPath)
  | removeDirAll (p : FsPath)
  deriving DecidableEq, Repr

/-- Outcomes of the external collaborators consumed during one reducer step:
the `read_dir` outcome at the state's path, the boolean `question_zenity`
returns (it already folds a failure to run zenity into `false`), the result
of the attempted removal, and the result of `open::that_detached`. -/
structure Env where
  readDir : ReadDirResult
  confirmAnswer : Bool
  removeResult : Except String Unit
  openResult : Except String Unit

/-- What one reducer step produced: the new state, the returned task, the
`error_zenity` notifications emitted, and the filesystem mutations issued. -/
structure StepResult where
  state : State
  task : EffectTask
  notifications : List String
  fsOps : List FsOp
  deriving DecidableEq, Repr

/-- The reducer `update` from the source, one message at a time; `none`
models a panic (`.unwrap()` on a `None`/`Err` value). -/
def update (env : Env) (state : State) (message : Message) : Option StepResult :=
  match message with
  | .None => some ⟨state, .none, [], []⟩
  | .PathChanged s =>
      some ⟨{ state with path := pathFromString s }, .none, [], []⟩
  | .CDToPath =>
      let files := get_files env.readDir state.config.show_hidden_files
      if files.isEmpty then
        some ⟨state, .none, [], []⟩
      else
        some ⟨{ state with current_files := files }, .none, [], []⟩
  | .Up =>
      some ⟨{ state with path := upPath state.path }, .done .CDToPath, [], []⟩
  | .DeleteFile p =>
      match fileName p with
      | none => none
      | some _file_name =>
          if env.confirmAnswer then
            match env.removeResult with
            | .ok _ =>
                some ⟨state, .done .CDToPath, [], [.removeFile p]⟩
            | .error e =>
                some ⟨state, .done .CDToPath,
                      ["Failed to delete: " ++ e], [.removeFile p]⟩
          else
            some ⟨state, .done .CDToPath, [], []⟩
  | .DeleteDir p =>
      match fileName p with
      | none => none
      | some _file_name =>
          if env.confirmAnswer then
            match env.removeResult with
            | .ok _ =>
                some ⟨state, .done .CDToPath, [], [.removeDirAll p]⟩
            | .error e =>
                some ⟨state, .done .CDToPath,
                      ["Failed to delete dir: " ++ e], [.removeDirAll p]⟩
          else
            some ⟨state, .done .CDToPath, [], []⟩
  | .Open _ =>
      match env.openResult with
      | .ok _ => some ⟨state, .none, [], []⟩
      | .error _ => none
  | .CD p =>
      some ⟨{ state with path := p }, .done .CDToPath, [], []⟩
  | .QuitApp id =>
      match id with
      | none => none
      | some i => some ⟨state, .closeWindow i, [], []⟩
  | .ToggleSidebar =>
      some ⟨{ state with sidebar_open := !state.sidebar_open }, .none, [], []⟩

/-- A concrete configuration, for evaluating the reducer on specific runs. -/
def exampleConfig : Config :=
  { theme := "GruvboxDark", show_hidden_files := false, sidebar_loc := [] }

/-- A concrete state whose listing still shows a previous directory's
single entry `old`. -/
def staleState : State :=
  { config := exampleConfig
    path := ["tmp"]
    current_files := [⟨['o', 'l', 'd'], false⟩]
    sidebar_open := true }

/-- A run in which the directory at the state's path reads as empty. -/
def emptyDirEnv : Env :=
  { readDir := some [], confirmAnswer := false
    removeResult := .ok (), openResult := .ok () }

/-- A run in which `fs::read_dir` at the state's path fails. -/
def failedReadEnv : Env :=
  { readDir := none, confirmAnswer := false
    removeResult := .ok (), openResult := .ok () }

/-- A run in which `open::that_detached` fails (e.g. no handler). -/
def openFailEnv : Env :=
  { readDir := some [], confirmAnswer := false
    removeResult := .ok (), openResult := .error "no handler" }

/-!  Lemmas about the name comparison and the sort comparator. -/

theorem cmpName_self (a : List Char) : cmpName a a = .eq := by
  induction a with
  | nil => rfl
  | cons c cs ih => simp [cmpName, ih]

theorem cmpName_eq_iff : ∀ {a b : List Char}, cmpName a b = .eq ↔ a = b := by
  intro a
  induction a with
  | nil => intro b; cases b <;> simp [cmpName]
  | cons c cs ih =>
      intro b
      cases b with
      | nil => simp [cmpName]
      | cons d ds =>
          constructor
          · intro h
            unfold cmpName at h
            split_ifs at h with h1 h2
            have hcd : c = d := le_antisymm (not_lt.mp h2) (not_lt.mp h1)
            have := ih.mp h
            rw [hcd, this]
          · intro h
            rw [h]
            exact cmpName_self _

theorem cmpName_cons_lt {a b : Char} {as bs : List Char} :
    cmpName (a :: as) (b :: bs) = .lt ↔ a < b ∨ (a = b ∧ cmpName as bs = .lt) := by
  rcases lt_trichotomy a b with h | h | h
  · simp [cmpName, h]
  · subst h; simp [cmpName, lt_irrefl]
  · simp [cmpName, h, h.asymm, h.ne']

theorem cmpName_gt_iff : ∀ {a b : List Char}, cmpName a b = .gt ↔ cmpName b a = .lt
  | [], [] => by simp [cmpName]
  | [], _ :: _ => by simp [cmpName]
  | _ :: _, [] => by simp [cmpName]
  | a :: as, b :: bs => by
      unfold cmpName
      rcases lt_trichotomy a b with h | h | h
      · simp [h, h.asymm, h.ne']
      · subst h
        simp [lt_irrefl, cmpName_gt_iff]
      · simp [h, h.asymm, h.ne]

theorem cmpName_lt_trans :
    ∀ {a b c : List Char}, cmpName a b = .lt → cmpName b c = .lt → cmpName a c = .lt := by
  intro a
  induction a with
  | nil =>
      intro b c h1 h2
      cases c with
      | nil =>
          cases b with
          | nil => exact h2
          | cons b bs => simp [cmpName] at h2
      | cons c cs => rfl
  | cons a as ih =>
      intro b c h1 h2
      cases b with
      | nil => simp [cmpName] at h1
      | cons b bs =>
          cases c with
          | nil => simp [cmpName] at h2
          | cons c cs =>
              rw [cmpName_cons_lt] at h1 h2 ⊢
              rcases h1 with h1 | ⟨rfl, h1⟩
              · rcases h2 with h2 | ⟨rfl, h2⟩
                · exact Or.inl (lt_trans h1 h2)
                · exact Or.inl h1
              · rcases h2 with h2 | ⟨rfl, h2⟩
                · exact Or.inl h2
                · exact Or.inr ⟨rfl, ih h1 h2⟩

theorem cmpName_ne_gt_iff {a b : List Char} :
    cmpName a b ≠ .gt ↔ (cmpName a b = .lt ∨ a = b) := by
  rcases h : cmpName a b with _ | _ | _
  · simp [h]
  · simp [cmpName_eq_iff.mp h]
  · simp [h]
    intro hc
    rw [hc, cmpName_self] at h
    cases h

theorem cmpName_ne_gt_trans {a b c : List Char}
    (h1 : cmpName a b ≠ .gt) (h2 : cmpName b c ≠ .gt) : cmpName a c ≠ .gt := by
  rw [cmpName_ne_gt_iff] at h1 h2 ⊢
  rcases h1 with h1 | rfl
  · rcases h2 with h2 | rfl
    · exact Or.inl (cmpName_lt_trans h1 h2)
    · exact Or.inl h1
  · exact h2

theorem entryLE_iff {a b : DirEntry} :
    entryLE a b ↔
      (a.isDir = true ∧ b.isDir = false) ∨
      (a.isDir = b.isDir ∧ cmpName a.name b.name ≠ .gt) := by
  unfold entryLE rustCmp
  rcases a with ⟨na, da⟩
  rcases b with ⟨nb, db⟩
  cases da <;> cases db <;> simp

theorem entryLE_isTotal : IsTotal DirEntry entryLE :=
  ⟨by
    intro a b
    rw [entryLE_iff, entryLE_iff]
    rcases a with ⟨na, da⟩
    rcases b with ⟨nb, db⟩
    cases da <;> cases db <;> simp
    · by_cases h : cmpName na nb = .gt
      · exact Or.inr (by simp [cmpName_gt_iff.mp h])
      · exact Or.inl h
    · by_cases h : cmpName na nb = .gt
      · exact Or.inr (by simp [cmpName_gt_iff.mp h])
      · exact Or.inl h⟩

theorem entryLE_isTrans : IsTrans DirEntry entryLE :=
  ⟨by
    intro a b c h1 h2
    rw [entryLE_iff] at h1 h2 ⊢
    rcases h1 with ⟨ha, hb⟩ | ⟨hab, hcmp1⟩
    · rcases h2 with ⟨hb', hc⟩ | ⟨hbc, hcmp2⟩
      · rw [hb] at hb'; cases hb'
      · exact Or.inl ⟨ha, hbc ▸ hb⟩
    · rcases h2 with ⟨hb', hc⟩ | ⟨hbc, hcmp2⟩
      · exact Or.inl ⟨hab ▸ hb', hc⟩
      · exact Or.inr ⟨hab.trans hbc, cmpName_ne_gt_trans hcmp1 hcmp2⟩⟩

/-!  Lemmas about the collection loop and `get_files`. -/

theorem collectEntries_eq_filter (sh : Bool) (l : List (Option DirEntry)) :
    collectEntries sh l =
      (l.filterMap id).filter (fun e => !(!sh && startsWithDot e.name)) := by
  induction l with
  | nil => rfl
  | cons o rest ih =>
      cases o with
      | none => simpa [collectEntries, List.filterMap_cons] using ih
      | some e =>
          rcases hsw : startsWithDot e.name <;> cases sh <;>
            simp [collectEntries, List.filterMap_cons, List.filter_cons, hsw, ih]

theorem get_files_some_perm (sh : Bool) (l : List (Option DirEntry)) :
    (get_files (some l) sh).Perm
      ((l.filterMap id).filter (fun e => !(!sh && startsWithDot e.name))) := by
  rw [show get_files (some l) sh
        = List.insertionSort entryLE (collectEntries sh l) from rfl,
      collectEntries_eq_filter]
  exact List.perm_insertionSort _ _

theorem mem_get_files_iff {e : DirEntry} {l : List (Option DirEntry)} {sh : Bool} :
    e ∈ get_files (some l) sh ↔
      e ∈ l.filterMap id ∧ (!(!sh && startsWithDot e.name)) = true := by
  rw [(get_files_some_perm sh l).mem_iff, List.mem_filter]

theorem get_files_sorted (sh : Bool) (l : List (Option DirEntry)) :
    (get_files (some l) sh).Pairwise entryLE := by
  haveI := entryLE_isTotal
  haveI := entryLE_isTrans
  exact List.sorted_insertionSort entryLE _

/-- C4: for every successfully read directory and either visibility flag,
`get_files` places all directory entries before all non-directory entries,
and within each of the two groups the derived names are strictly ascending
in case-sensitive lexicographic order; strictness rests on the filesystem
guarantee that names within one directory are distinct, taken as the
hypothesis `hnd`. -/
theorem get_files_dirs_first_strictly_ascending
    (entries : List (Option DirEntry)) (flag : Bool)
    (hnd : (entries.filterMap id).Pairwise (fun a b => a.name ≠ b.name)) :
    (get_files (some entries) flag).Pairwise (fun a b =>
      (a.isDir = false → b.isDir = false) ∧
      (a.isDir = b.isDir → cmpName a.name b.name = .lt)) := by
  have hsorted : (get_files (some entries) flag).Pairwise entryLE :=
    get_files_sorted flag entries
  have hsub : List.Sublist (collectEntries flag entries) (entries.filterMap id) := by
    rw [collectEntries_eq_filter]
    exact List.filter_sublist _
  have hnd2 : (collectEntries flag entries).Pairwise (fun a b => a.name ≠ b.name) :=
    List.Pairwise.sublist hsub hnd
  have hperm : (get_files (some entries) flag).Perm (collectEntries flag entries) :=
    List.perm_insertionSort entryLE _
  have hnd3 : (get_files (some entries) flag).Pairwise (fun a b => a.name ≠ b.name) :=
    (List.Perm.pairwise_iff (fun h => Ne.symm h) hperm).mpr hnd2
  refine (hsorted.and hnd3).imp ?_
  rintro a b ⟨hle, hne⟩
  rcases entryLE_iff.mp hle with ⟨ha, hb⟩ | ⟨heq, hcmp⟩
  · constructor
    · intro h
      rw [ha] at h
      exact Bool.noConfusion h
    · intro h
      rw [ha, hb] at h
      exact Bool.noConfusion h
  · constructor
    · intro h
      rw [← heq]
      exact h
    · intro _
      rcases cmpName_ne_gt_iff.mp hcmp with h | h
      · exact h
      · exact absurd h hne

/-- C4 witness: a directory holding file `b`, directory `A` and file `a`
satisfies the partition-and-strict-ascent conclusion. -/
theorem get_files_dirs_first_strictly_ascending_witness :
    (get_files (some [some ⟨['b'], false⟩, some ⟨['A'], true⟩, some ⟨['a'], false⟩])
        true).Pairwise (fun a b =>
      (a.isDir = false → b.isDir = false) ∧
      (a.isDir = b.isDir → cmpName a.name b.name = .lt)) :=
  get_files_dirs_first_strictly_ascending
    [some ⟨['b'], false⟩, some ⟨['A'], true⟩, some ⟨['a'], false⟩] true (by decide)

/-- C5: with the flag off, no listed entry's derived name starts with `'.'`;
with the flag on, every readable entry — hidden ones included — is listed;
and under the `read_dir` contract that the pseudo-entries `.` and `..` are
never enumerated, they never appear in the listing, regardless of the flag. -/
theorem get_files_visibility_filtering (entries : List (Option DirEntry)) :
    (∀ e ∈ get_files (some entries) false, startsWithDot e.name = false) ∧
    (∀ e ∈ entries.filterMap id, e ∈ get_files (some entries) true) ∧
    (∀ flag : Bool,
      (∀ e ∈ entries.filterMap id, e.name ≠ ['.'] ∧ e.name ≠ ['.', '.']) →
      ∀ e ∈ get_files (some entries) flag,
        e.name ≠ ['.'] ∧ e.name ≠ ['.', '.']) := by
  refine ⟨?_, ?_, ?_⟩
  · intro e he
    have h := (mem_get_files_iff.mp he).2
    simpa using h
  · intro e he
    rw [mem_get_files_iff]
    exact ⟨he, by simp⟩
  · intro flag h e he
    exact h e (mem_get_files_iff.mp he).1

/-- C5 witness: in a directory holding `.s` (hidden file) and `a`
(directory), the flag-on listing contains no `.` or `..` entry. -/
theorem get_files_visibility_filtering_witness :
    ∀ e ∈ get_files (some [some ⟨['.', 's'], false⟩, some ⟨['a'], true⟩]) true,
      e.name ≠ ['.'] ∧ e.name ≠ ['.', '.'] :=
  (get_files_visibility_filtering
    [some ⟨['.', 's'], false⟩, some ⟨['a'], true⟩]).2.2 true (by decide)

/-- C8: when `fs::read_dir` fails (missing path, not a directory, permission
denied), `get_files` returns the empty sequence for either flag; the
embedding is a pure function, so no side effect is performed. -/
theorem get_files_read_failure_empty :
    ∀ flag : Bool, get_files none flag = [] :=
  fun _ => rfl

/-- C10: when the enumeration handle opens but one entry read fails during
iteration, that entry is skipped silently and the listing equals the listing
of the remaining readable entries — it is neither emptied nor aborted. -/
theorem get_files_skips_unreadable_entry
    (sh : Bool) (xs ys : List (Option DirEntry)) :
    get_files (some (xs ++ none :: ys)) sh = get_files (some (xs ++ ys)) sh := by
  have h : collectEntries sh (xs ++ none :: ys) = collectEntries sh (xs ++ ys) := by
    rw [collectEntries_eq_filter, collectEntries_eq_filter]
    simp [List.filterMap_append, List.filterMap_cons]
  show List.insertionSort entryLE (collectEntries sh (xs ++ none :: ys))
      = List.insertionSort entryLE (collectEntries sh (xs ++ ys))
  rw [h]

/-- C9: the `Up` handler replaces the path by its parent — the root itself
when no parent exists, making `up` idempotent at the root — and then behaves
as `navigate()` by issuing the `CDToPath` follow-up task. -/
theorem up_parent_root_then_navigate (env : Env) (st : State) :
    update env st .Up =
      some ⟨{ st with path := upPath st.path }, .done .CDToPath, [], []⟩ ∧
    (∀ (xs : FsPath) (x : String), upPath (xs ++ [x]) = xs) ∧
    upPath ([] : FsPath) = [] ∧
    upPath (upPath ([] : FsPath)) = upPath ([] : FsPath) := by
  refine ⟨rfl, ?_, rfl, rfl⟩
  intro xs x
  simp [upPath, parentPath]

theorem update_deleteFile_eq (env : Env) (st : State) (p : FsPath) {n : String}
    (hn : fileName p = some n) :
    update env st (.DeleteFile p) =
      some ⟨st, .done .CDToPath,
            if env.confirmAnswer then
              match env.removeResult with
              | .ok _ => []
              | .error e => ["Failed to delete: " ++ e]
            else [],
            if env.confirmAnswer then [.removeFile p] else []⟩ := by
  simp only [update]
  rw [hn]
  cases env.confirmAnswer <;> rcases env.removeResult <;> rfl

theorem update_deleteDir_eq (env : Env) (st : State) (p : FsPath) {n : String}
    (hn : fileName p = some n) :
    update env st (.DeleteDir p) =
      some ⟨st, .done .CDToPath,
            if env.confirmAnswer then
              match env.removeResult with
              | .ok _ => []
              | .error e => ["Failed to delete dir: " ++ e]
            else [],
            if env.confirmAnswer then [.removeDirAll p] else []⟩ := by
  simp only [update]
  rw [hn]
  cases env.confirmAnswer <;> rcases env.removeResult <;> rfl

/-- C3: for every deletable path (any path carrying a final component, as
every listed entry does), both delete handlers issue a filesystem mutation
exactly when the confirmation collaborator answered yes — a declined
confirmation leaves the filesystem untouched — and in every outcome
(confirmed-success, confirmed-failure, declined) they return the `CDToPath`
follow-up task that re-lists the current directory. -/
theorem delete_gated_by_confirmation_and_relists
    (env : Env) (st : State) (p : FsPath) (hp : p ≠ []) :
    ∃ rf rd : StepResult,
      update env st (.DeleteFile p) = some rf ∧
      update env st (.DeleteDir p) = some rd ∧
      (env.confirmAnswer = false → rf.fsOps = [] ∧ rd.fsOps = []) ∧
      (env.confirmAnswer = true →
        rf.fsOps = [.removeFile p] ∧ rd.fsOps = [.removeDirAll p]) ∧
      rf.state = st ∧ rd.state = st ∧
      rf.task = .done .CDToPath ∧ rd.task = .done .CDToPath := by
  obtain ⟨n, hn⟩ : ∃ n, fileName p = some n := by
    cases p with
    | nil => exact absurd rfl hp
    | cons a as =>
        exact Option.isSome_iff_exists.mp
          (List.getLast?_isSome.mpr (List.cons_ne_nil a as))
  refine ⟨_, _, update_deleteFile_eq env st p hn, update_deleteDir_eq env st p hn,
    ?_, ?_, rfl, rfl, rfl, rfl⟩
  · intro h
    simp [h]
  · intro h
    simp [h]

/-- C3 witness: the declined case at the entry `/tmp/f`. -/
theorem delete_gated_by_confirmation_and_relists_witness :
    (["tmp", "f"] : FsPath) ≠ [] ∧
    ∃ rf rd : StepResult,
      update emptyDirEnv staleState (.DeleteFile ["tmp", "f"]) = some rf ∧
      update emptyDirEnv staleState (.DeleteDir ["tmp", "f"]) = some rd ∧
      (emptyDirEnv.confirmAnswer = false → rf.fsOps = [] ∧ rd.fsOps = []) ∧
      (emptyDirEnv.confirmAnswer = true →
        rf.fsOps = [.removeFile ["tmp", "f"]] ∧
        rd.fsOps = [.removeDirAll ["tmp", "f"]]) ∧
      rf.state = staleState ∧ rd.state = staleState ∧
      rf.task = .done .CDToPath ∧ rd.task = .done .CDToPath :=
  ⟨by decide,
   delete_gated_by_confirmation_and_relists emptyDirEnv staleState ["tmp", "f"]
     (by decide)⟩

/-- C1: the claim says the listing is replaced unconditionally, but the
reducer guards the replacement with a non-emptiness test: navigating into a
directory that reads as empty keeps the previous directory's entries. -/
theorem navigate_empty_keeps_stale_listing :
    update emptyDirEnv staleState .CDToPath = some ⟨staleState, .none, [], []⟩ ∧
    staleState.current_files = [⟨['o', 'l', 'd'], false⟩] := by
  constructor
  · rfl
  · rfl

/-- C2: on a failed directory read, `CDToPath` does leave the state
unchanged, but it emits no notification at all — not the single
notification the claim requires; `get_files` collapses the failure into an
empty listing silently. -/
theorem navigate_read_failure_emits_no_notification :
    update failedReadEnv staleState .CDToPath =
      some ⟨staleState, .none, [], []⟩ :=
  rfl

/-- C6: when `open::that_detached` fails, the handler unwraps the error and
the process terminates (modelled as `none`); no notification is emitted,
contradicting the claim's report-and-continue behavior. -/
theorem open_launch_failure_terminates :
    update openFailEnv staleState (.Open ["tmp", "f"]) = none :=
  rfl

/-- C7: a missing configuration file, or a malformed one the TOML parser
rejects, makes `load_config` — and hence startup via `Default for CsFM` —
panic (modelled as `none`) instead of completing with default values and a
warning. -/
theorem startup_config_failure_panics :
    (∀ parseToml : String → Option Config, load_config none parseToml = none) ∧
    (∀ s : String, load_config (some s) (fun _ => none) = none) ∧
    (∀ (cwd : Option FsPath) (parseToml : String → Option Config)
        (rd : ReadDirResult), defaultState cwd none parseToml rd = none) :=
  ⟨fun _ => rfl, fun _ => rfl, fun _ _ _ => rfl⟩

end CsFM
